import Mathlib

/-!
Shallow embedding of the FusionImg canvas editor core: the geometry module
(src/utils/geometry.ts), the drawing-to-image export decision
(src/utils/canvasUtils.ts), the undo/redo history container (the useHistory
hook) and the canvas interaction engine's hit-testing, marquee-release and
resize logic. Coordinates are modelled as real numbers; angles are stored in
degrees and converted to radians exactly as the source does.
-/

namespace FusionImg

/-- A canvas-space point (types.ts, interface Point). -/
@[ext]
structure Point where
  x : ℝ
  y : ℝ

/-- An axis-aligned rectangle: the anonymous box records of geometry.ts and
the SelectionRect interface of types.ts share this shape. -/
@[ext]
structure Rect where
  x : ℝ
  y : ℝ
  width : ℝ
  height : ℝ

/-- ImageItem (types.ts). The src field holds the data or blob URL. -/
structure ImageItem where
  id : String
  x : ℝ
  y : ℝ
  rotation : ℝ
  width : ℝ
  height : ℝ
  src : String
  thumbnailSrc : Option String := none
  mimeType : String
  prompt : String

/-- VideoItem (types.ts). -/
structure VideoItem where
  id : String
  x : ℝ
  y : ℝ
  rotation : ℝ
  width : ℝ
  height : ℝ
  src : String
  mimeType : String
  prompt : String

/-- TextItem (types.ts). -/
structure TextItem where
  id : String
  x : ℝ
  y : ℝ
  rotation : ℝ
  width : ℝ
  height : ℝ
  text : String
  color : String
  fontSize : ℝ

/-- DrawingItem (types.ts): a polyline with stroke attributes. -/
structure DrawingItem where
  id : String
  points : List Point
  color : String
  strokeWidth : ℝ
  opacity : ℝ
  rotation : ℝ

/-- CanvasItem (types.ts): the tagged union of the four item variants. -/
inductive CanvasItem where
  | image (item : ImageItem)
  | video (item : VideoItem)
  | text (item : TextItem)
  | drawing (item : DrawingItem)

/-- The shared id field of a CanvasItem. -/
def CanvasItem.id : CanvasItem → String
  | .image i => i.id
  | .video v => v.id
  | .text t => t.id
  | .drawing d => d.id

/-- The shared rotation field of a CanvasItem (degrees). -/
def CanvasItem.rotation : CanvasItem → ℝ
  | .image i => i.rotation
  | .video v => v.rotation
  | .text t => t.rotation
  | .drawing d => d.rotation

/-- The least element of a list of reals, mirroring a JavaScript
Math.min spread over a list; every use site guards against the empty
list, for which the value 0 here is arbitrary. -/
noncomputable def listMin : List ℝ → ℝ
  | [] => 0
  | a :: t => t.foldl min a

/-- The greatest element of a list of reals, mirroring Math.max; every use
site guards against the empty list. -/
noncomputable def listMax : List ℝ → ℝ
  | [] => 0
  | a :: t => t.foldl max a

/-- rotatePoint (geometry.ts lines 3-12): rotates a point about a center by
an angle given in degrees, via cosine and sine of the radian angle. -/
noncomputable def rotatePoint (point center : Point) (angleDegrees : ℝ) : Point :=
  ⟨(point.x - center.x) * Real.cos (angleDegrees * Real.pi / 180)
     - (point.y - center.y) * Real.sin (angleDegrees * Real.pi / 180) + center.x,
   (point.x - center.x) * Real.sin (angleDegrees * Real.pi / 180)
     + (point.y - center.y) * Real.cos (angleDegrees * Real.pi / 180) + center.y⟩

/-- getCenter (geometry.ts lines 70-72). -/
noncomputable def getCenter (box : Rect) : Point :=
  ⟨box.x + box.width / 2, box.y + box.height / 2⟩

/-- getBoundingBox (geometry.ts lines 14-34): the axis-aligned box of an item
in its unrotated frame. A drawing with no points yields the zero box; one
with points yields the point extrema padded by half the stroke width, with
each dimension at least the stroke width. -/
noncomputable def getBoundingBox : CanvasItem → Rect
  | .drawing d =>
    if d.points.length = 0 then ⟨0, 0, 0, 0⟩
    else
      let xs := d.points.map Point.x
      let ys := d.points.map Point.y
      let padding := d.strokeWidth / 2
      let minX := listMin xs - padding
      let minY := listMin ys - padding
      let maxX := listMax xs + padding
      let maxY := listMax ys + padding
      ⟨minX, minY, max d.strokeWidth (maxX - minX), max d.strokeWidth (maxY - minY)⟩
  | .image i => ⟨i.x, i.y, i.width, i.height⟩
  | .video v => ⟨v.x, v.y, v.width, v.height⟩
  | .text t => ⟨t.x, t.y, t.width, t.height⟩

/-- getRotatedBoundingBox (geometry.ts lines 36-58): the axis-aligned extrema
of the four corners of the unrotated box rotated about its center by the
item's rotation. -/
noncomputable def getRotatedBoundingBox (item : CanvasItem) : Rect :=
  let box := getBoundingBox item
  let center := getCenter box
  let corners : List Point :=
    [⟨box.x, box.y⟩, ⟨box.x + box.width, box.y⟩,
     ⟨box.x, box.y + box.height⟩, ⟨box.x + box.width, box.y + box.height⟩]
  let rotatedCorners := corners.map fun corner => rotatePoint corner center item.rotation
  let xs := rotatedCorners.map Point.x
  let ys := rotatedCorners.map Point.y
  ⟨listMin xs, listMin ys, listMax xs - listMin xs, listMax ys - listMin ys⟩

/-- isPointInBox (geometry.ts lines 60-67). -/
def isPointInBox (point : Point) (box : Rect) : Prop :=
  box.x ≤ point.x ∧ point.x ≤ box.x + box.width ∧
  box.y ≤ point.y ∧ point.y ≤ box.y + box.height

/-- isItemInSelection (geometry.ts lines 75-83): strict axis-aligned overlap
between the item's rotated bounding box and the selection rect. -/
def isItemInSelection (item : CanvasItem) (rect : Rect) : Prop :=
  let itemBox := getRotatedBoundingBox item
  itemBox.x < rect.x + rect.width ∧ rect.x < itemBox.x + itemBox.width ∧
  itemBox.y < rect.y + rect.height ∧ rect.y < itemBox.y + itemBox.height

open Classical in
/-- convertDrawingToImageItem (canvasUtils.ts lines 6-58): returns none when
the drawing's bounding box has no positive width or height, otherwise an
image item placed at the bounding box. The DOM rasterization (2d context,
toDataURL) lies outside the model, so the produced data URL is abstracted to
an empty src string; the failure branch for a missing 2d context is an
environment fault, not part of the algorithm, and is not modelled. -/
noncomputable def convertDrawingToImageItem (drawing : DrawingItem) : Option ImageItem :=
  let box := getBoundingBox (.drawing drawing)
  if box.width ≤ 0 ∨ box.height ≤ 0 then none
  else
    some
      { id := "drawing_img_" ++ drawing.id
        x := box.x
        y := box.y
        rotation := 0
        width := box.width
        height := box.height
        src := ""
        thumbnailSrc := none
        mimeType := "image/png"
        prompt := "a user-made drawing" }

/-- The combined state of the useHistory hook (the unnamed history module,
lines 12-18): the snapshot list and the current index, held as one atomic
value. -/
structure HistoryState (T : Type) where
  history : List T
  index : Nat

/-- The initial history: a singleton list at index 0 (useHistory lines 14-17). -/
def initial {T : Type} (initialState : T) : HistoryState T :=
  ⟨[initialState], 0⟩

/-- The currently exposed value, history[index] (useHistory line 90). -/
def currentValue {T : Type} (s : HistoryState T) : Option T :=
  s.history.get? s.index

/-- setState (useHistory lines 25-61). The source first applies the action to
the entry at the current index to obtain newState; this model receives that
newState directly, which covers both the replacement-value and the functional
form of the action. If newState equals the current entry (the source compares
JSON serializations, i.e. structural equality) nothing changes; on commit the
redo tail is truncated and newState appended; otherwise the entry at the
current index is overwritten in place. The index is in bounds in every
reachable state (theorem runOps_wf below), so the fallback branch for an
out-of-range index is dead code and returns the state unchanged. -/
def setState {T : Type} [DecidableEq T] (s : HistoryState T) (newState : T)
    (commit : Bool) : HistoryState T :=
  match s.history.get? s.index with
  | none => s
  | some currentHistoryState =>
    if newState = currentHistoryState then s
    else if commit then
      let newHistory := s.history.take (s.index + 1) ++ [newState]
      { history := newHistory, index := newHistory.length - 1 }
    else
      { history := s.history.set s.index newState, index := s.index }

/-- Whether setState fires the onStateChange callback (useHistory lines
38-41): exactly when the structural no-op guard does not trigger. -/
def setStateNotifies {T : Type} [DecidableEq T] (s : HistoryState T)
    (newState : T) : Bool :=
  match s.history.get? s.index with
  | none => true
  | some currentHistoryState => decide (newState ≠ currentHistoryState)

/-- undo (useHistory lines 63-74): steps the index back unless it is 0. -/
def undo {T : Type} (s : HistoryState T) : HistoryState T :=
  if 0 < s.index then { s with index := s.index - 1 } else s

/-- redo (useHistory lines 76-87): steps the index forward unless at the end. -/
def redo {T : Type} (s : HistoryState T) : HistoryState T :=
  if s.index < s.history.length - 1 then { s with index := s.index + 1 } else s

/-- canUndo (useHistory line 94). -/
def canUndo {T : Type} (s : HistoryState T) : Bool :=
  decide (0 < s.index)

/-- canRedo (useHistory line 95). -/
def canRedo {T : Type} (s : HistoryState T) : Bool :=
  decide (s.index < s.history.length - 1)

/-- One operation of the history container's public interface. -/
inductive HistoryOp (T : Type) where
  | set (v : T) (commit : Bool)
  | undo
  | redo

/-- Whether an operation is not a transient update: undo and redo always,
a setState exactly when its commit flag is true. -/
def HistoryOp.isCommitted {T : Type} : HistoryOp T → Bool
  | .set _ commit => commit
  | .undo => true
  | .redo => true

/-- Applies one operation to a history state. -/
def applyOp {T : Type} [DecidableEq T] (s : HistoryState T) :
    HistoryOp T → HistoryState T
  | .set v commit => setState s v commit
  | .undo => undo s
  | .redo => redo s

/-- Runs a sequence of operations from a starting history state. -/
def runOps {T : Type} [DecidableEq T] (s : HistoryState T)
    (ops : List (HistoryOp T)) : HistoryState T :=
  ops.foldl applyOp s

/-- The hit condition of findItemAtPoint (the unnamed Canvas component,
lines 216-231) for one item: the item is not ghosted, and the query point,
un-rotated about the center of the item's unrotated bounding box by the
negative of the item's rotation, lies inside that box. -/
def hitsItem (ghostedItemIds : List String) (point : Point) (item : CanvasItem) : Prop :=
  item.id ∉ ghostedItemIds ∧
  (let box := getBoundingBox item
   let center := getCenter box
   let rotatedPoint := rotatePoint point center (-item.rotation)
   box.x ≤ rotatedPoint.x ∧ rotatedPoint.x ≤ box.x + box.width ∧
   box.y ≤ rotatedPoint.y ∧ rotatedPoint.y ≤ box.y + box.height)

open Classical in
/-- findItemAtPoint (Canvas component lines 216-231): walks the item list in
reverse z-order and returns the first non-ghosted item whose box contains the
un-rotated query point; none when no item matches. -/
noncomputable def findItemAtPoint (items : List CanvasItem)
    (ghostedItemIds : List String) (point : Point) : Option CanvasItem :=
  items.reverse.find? fun item => decide (hitsItem ghostedItemIds point item)

open Classical in
/-- The sublist of items that findItemAtPoint's hit condition accepts, in
z-order. -/
noncomputable def filterHits (items : List CanvasItem)
    (ghostedItemIds : List String) (point : Point) : List CanvasItem :=
  items.filter fun item => decide (hitsItem ghostedItemIds point item)

/-- Single-character membership in a string, modelling the JavaScript
includes test the source applies to handle strings with the one-character
arguments e and s. -/
def stringIncludes (s : String) (c : Char) : Bool :=
  s.data.contains c

/-- The per-gesture snapshot stored by handleInteractionStart for a resize
(Canvas component lines 260-273): the item, its unrotated box and center, and
the world-space position of the corner opposite the dragged handle. -/
structure ResizeState where
  item : CanvasItem
  box : Rect
  center : Point
  oppositeCorner : Point

/-- handleInteractionStart's resizing branch (Canvas component lines
260-273): captures the item's box and center and rotates the corner opposite
the dragged handle about the center by the item's rotation. The handle is
the source's handle string; membership of the letters e and s picks the
corner. -/
noncomputable def resizeInteractionStart (item : CanvasItem) (handle : String) :
    ResizeState :=
  let box := getBoundingBox item
  let center := getCenter box
  { item := item
    box := box
    center := center
    oppositeCorner :=
      rotatePoint
        ⟨box.x + (if stringIncludes handle 'e' then 0 else box.width),
         box.y + (if stringIncludes handle 's' then 0 else box.height)⟩
        center item.rotation }

open Classical in
/-- The new width and height a resize step computes (Canvas component lines
451-465): the absolute components of the mouse-to-anchor vector un-rotated by
the negative item rotation, then adjusted to the original aspect ratio when
the shift modifier is held on an image or video item. -/
noncomputable def resizeDims (st : ResizeState) (mouse : Point) (shiftKey : Bool) :
    ℝ × ℝ :=
  let vec : Point := ⟨mouse.x - st.oppositeCorner.x, mouse.y - st.oppositeCorner.y⟩
  let unrotatedVec := rotatePoint vec ⟨0, 0⟩ (-st.item.rotation)
  let newWidth := |unrotatedVec.x|
  let newHeight := |unrotatedVec.y|
  let aspectLockable :=
    match st.item with
    | .image _ => true
    | .video _ => true
    | _ => false
  if shiftKey ∧ aspectLockable = true then
    let aspect := st.box.width / st.box.height
    if newWidth / newHeight > aspect then (newWidth, newWidth / aspect)
    else (newHeight * aspect, newHeight)
  else (newWidth, newHeight)

open Classical in
/-- handleMouseMove's resizing branch (Canvas component lines 447-493): when
either computed dimension falls below 10 the step aborts and the item list is
untouched; otherwise the item whose id matches the resized item is given the
new geometry (position from the midpoint of anchor and mouse; drawings are
rescaled point-wise about the original center). -/
noncomputable def resizeMove (st : ResizeState) (items : List CanvasItem)
    (mouse : Point) (shiftKey : Bool) : List CanvasItem :=
  let dims := resizeDims st mouse shiftKey
  let newWidth := dims.1
  let newHeight := dims.2
  if newWidth < 10 ∨ newHeight < 10 then items
  else
    let newCenter : Point :=
      ⟨(st.oppositeCorner.x + mouse.x) / 2, (st.oppositeCorner.y + mouse.y) / 2⟩
    let newX := newCenter.x - newWidth / 2
    let newY := newCenter.y - newHeight / 2
    items.map fun item =>
      if item.id ≠ st.item.id then item
      else
        match item with
        | .image i => .image { i with x := newX, y := newY, width := newWidth, height := newHeight }
        | .text t => .text { t with x := newX, y := newY, width := newWidth, height := newHeight }
        | .video v => .video { v with x := newX, y := newY, width := newWidth, height := newHeight }
        | .drawing d =>
          let scaleX := newWidth / st.box.width
          let scaleY := newHeight / st.box.height
          .drawing { d with points := d.points.map fun p =>
            ⟨(p.x - st.center.x) * scaleX + newCenter.x,
             (p.y - st.center.y) * scaleY + newCenter.y⟩ }

/-- The stored width and height of an item, for the variants that carry them;
drawings derive their extent from their points and report none. -/
def itemDims : CanvasItem → Option (ℝ × ℝ)
  | .image i => some (i.width, i.height)
  | .video v => some (v.width, v.height)
  | .text t => some (t.width, t.height)
  | .drawing _ => none

open Classical in
/-- The items whose rotated bounding box overlaps the marquee rect (Canvas
component line 512). -/
noncomputable def overlappingItems (items : List CanvasItem) (rect : Rect) :
    List CanvasItem :=
  items.filter fun item => decide (isItemInSelection item rect)

/-- The axis-aligned min/max union of a list of boxes (Canvas component lines
514-526); meaningful for a nonempty list. -/
noncomputable def encompassingRect (boxes : List Rect) : Rect :=
  let minX := listMin (boxes.map Rect.x)
  let minY := listMin (boxes.map Rect.y)
  let maxX := listMax (boxes.map fun b => b.x + b.width)
  let maxY := listMax (boxes.map fun b => b.y + b.height)
  ⟨minX, minY, maxX - minX, maxY - minY⟩

open Classical in
/-- handleMouseUp's selecting branch (Canvas component lines 511-533): with
at least one overlapping item and a marquee strictly larger than 5 in both
dimensions, reports the encompassing rect of the overlapping items' rotated
bounding boxes together with those items; otherwise clears the selection
(modelled as none). -/
noncomputable def marqueeRelease (items : List CanvasItem) (rect : Rect) :
    Option (Rect × List CanvasItem) :=
  let selected := overlappingItems items rect
  if 0 < selected.length ∧ rect.width > 5 ∧ rect.height > 5 then
    some (encompassingRect (selected.map getRotatedBoundingBox), selected)
  else none

/-- Containment of a box in a rect, phrased on the four sides. -/
def rectContainsBox (outer b : Rect) : Prop :=
  outer.x ≤ b.x ∧ b.x + b.width ≤ outer.x + outer.width ∧
  outer.y ≤ b.y ∧ b.y + b.height ≤ outer.y + outer.height

/-- A drawing consisting of one point at the origin with stroke width 4. -/
def dotDrawing : DrawingItem :=
  { id := "dot"
    points := [⟨0, 0⟩]
    color := "white"
    strokeWidth := 4
    opacity := 1
    rotation := 0 }

/-- A drawing with an empty point list. -/
def emptyDrawing : DrawingItem :=
  { id := "empty"
    points := []
    color := "white"
    strokeWidth := 3
    opacity := 1
    rotation := 37 }

/-- An image item at the origin, 100 by 100, unrotated. -/
def squareImage : CanvasItem :=
  .image
    { id := "sq"
      x := 0
      y := 0
      rotation := 0
      width := 100
      height := 100
      src := ""
      mimeType := "image/png"
      prompt := "" }

/-- The expected result of dragging the se handle of squareImage to
canvas point 150 150. -/
def squareImageResized : CanvasItem :=
  .image
    { id := "sq"
      x := 0
      y := 0
      rotation := 0
      width := 150
      height := 150
      src := ""
      mimeType := "image/png"
      prompt := "" }

/-- The south-east resize handle string. -/
def seHandle : String := "se"

/-- An image item at the origin, 100 by 40, rotated 90 degrees about its
center, which lies at 50 20. The region it occupies after rotation spans
30 to 70 horizontally and negative 30 to 70 vertically. -/
def rotatedImage : CanvasItem :=
  .image
    { id := "rot"
      x := 0
      y := 0
      rotation := 90
      width := 100
      height := 40
      src := ""
      mimeType := "image/png"
      prompt := "" }

/-- A point inside the post-rotation occupied box of rotatedImage but
outside its pre-rotation axis-aligned box. -/
def hitPoint : Point := ⟨50, 60⟩

/-- A point inside the pre-rotation axis-aligned box of rotatedImage but
outside its post-rotation occupied box. -/
def missPoint : Point := ⟨90, 20⟩

/-- A 10 by 10 image at the origin for the marquee scenario. -/
def marqueeItem1 : CanvasItem :=
  .image
    { id := "m1"
      x := 0
      y := 0
      rotation := 0
      width := 10
      height := 10
      src := ""
      mimeType := "image/png"
      prompt := "" }

/-- A 10 by 10 image at 5 5, overlapping marqueeItem1. -/
def marqueeItem2 : CanvasItem :=
  .image
    { id := "m2"
      x := 5
      y := 5
      rotation := 0
      width := 10
      height := 10
      src := ""
      mimeType := "image/png"
      prompt := "" }

/-- A 3 by 3 marquee rect overlapping both marquee items. -/
def smallMarquee : Rect := ⟨6, 6, 3, 3⟩

/-- Well-formedness of a history state: the index addresses an entry. -/
def WFHistory {T : Type} (s : HistoryState T) : Prop :=
  s.index < s.history.length

lemma foldl_min_le_init (l : List ℝ) (a : ℝ) : l.foldl min a ≤ a := by
  induction l generalizing a with
  | nil => simp
  | cons b t ih => exact le_trans (ih (min a b)) (min_le_left a b)

lemma foldl_min_le_of_mem (l : List ℝ) (a x : ℝ) (hx : x ∈ l) :
    l.foldl min a ≤ x := by
  induction l generalizing a with
  | nil => cases hx
  | cons b t ih =>
    rcases List.mem_cons.mp hx with h | h
    · subst h
      exact le_trans (foldl_min_le_init t (min a x)) (min_le_right a x)
    · exact ih (min a b) h

lemma foldl_min_mem (l : List ℝ) (a : ℝ) :
    l.foldl min a = a ∨ l.foldl min a ∈ l := by
  induction l generalizing a with
  | nil => exact Or.inl rfl
  | cons b t ih =>
    have hfold : (b :: t).foldl min a = t.foldl min (min a b) := rfl
    rcases ih (min a b) with h | h
    · rcases min_choice a b with hab | hab
      · exact Or.inl (by rw [hfold, h, hab])
      · exact Or.inr (by rw [hfold, h, hab]; exact List.mem_cons_self b t)
    · exact Or.inr (by rw [hfold]; exact List.mem_cons_of_mem b h)

lemma le_foldl_max_init (l : List ℝ) (a : ℝ) : a ≤ l.foldl max a := by
  induction l generalizing a with
  | nil => simp
  | cons b t ih => exact le_trans (le_max_left a b) (ih (max a b))

lemma le_foldl_max_of_mem (l : List ℝ) (a x : ℝ) (hx : x ∈ l) :
    x ≤ l.foldl max a := by
  induction l generalizing a with
  | nil => cases hx
  | cons b t ih =>
    rcases List.mem_cons.mp hx with h | h
    · subst h
      exact le_trans (le_max_right a x) (le_foldl_max_init t (max a x))
    · exact ih (max a b) h

lemma foldl_max_mem (l : List ℝ) (a : ℝ) :
    l.foldl max a = a ∨ l.foldl max a ∈ l := by
  induction l generalizing a with
  | nil => exact Or.inl rfl
  | cons b t ih =>
    have hfold : (b :: t).foldl max a = t.foldl max (max a b) := rfl
    rcases ih (max a b) with h | h
    · rcases max_choice a b with hab | hab
      · exact Or.inl (by rw [hfold, h, hab])
      · exact Or.inr (by rw [hfold, h, hab]; exact List.mem_cons_self b t)
    · exact Or.inr (by rw [hfold]; exact List.mem_cons_of_mem b h)

lemma listMin_le_of_mem {l : List ℝ} {x : ℝ} (hx : x ∈ l) : listMin l ≤ x := by
  cases l with
  | nil => cases hx
  | cons a t =>
    rcases List.mem_cons.mp hx with h | h
    · subst h; exact foldl_min_le_init t x
    · exact foldl_min_le_of_mem t a x h

lemma listMin_mem {l : List ℝ} (h : l ≠ []) : listMin l ∈ l := by
  cases l with
  | nil => exact absurd rfl h
  | cons a t =>
    have hdef : listMin (a :: t) = t.foldl min a := rfl
    rcases foldl_min_mem t a with h1 | h1
    · rw [hdef, h1]; exact List.mem_cons_self a t
    · rw [hdef]; exact List.mem_cons_of_mem a h1

lemma le_listMax_of_mem {l : List ℝ} {x : ℝ} (hx : x ∈ l) : x ≤ listMax l := by
  cases l with
  | nil => cases hx
  | cons a t =>
    rcases List.mem_cons.mp hx with h | h
    · subst h; exact le_foldl_max_init t x
    · exact le_foldl_max_of_mem t a x h

lemma listMax_mem {l : List ℝ} (h : l ≠ []) : listMax l ∈ l := by
  cases l with
  | nil => exact absurd rfl h
  | cons a t =>
    have hdef : listMax (a :: t) = t.foldl max a := rfl
    rcases foldl_max_mem t a with h1 | h1
    · rw [hdef, h1]; exact List.mem_cons_self a t
    · rw [hdef]; exact List.mem_cons_of_mem a h1

lemma wf_initial {T : Type} (a : T) : WFHistory (initial a) := by
  simp [initial, WFHistory]

lemma setState_of_none {T : Type} [DecidableEq T] (s : HistoryState T) (v : T)
    (commit : Bool) (hget : s.history.get? s.index = none) :
    setState s v commit = s := by
  unfold setState
  rw [hget]

lemma setState_of_some {T : Type} [DecidableEq T] (s : HistoryState T) (v : T)
    (commit : Bool) (cur : T) (hget : s.history.get? s.index = some cur) :
    setState s v commit =
      if v = cur then s
      else if commit then
        { history := s.history.take (s.index + 1) ++ [v],
          index := (s.history.take (s.index + 1) ++ [v]).length - 1 }
      else { history := s.history.set s.index v, index := s.index } := by
  unfold setState
  rw [hget]

lemma wf_setState {T : Type} [DecidableEq T] (s : HistoryState T) (v : T)
    (commit : Bool) (h : WFHistory s) : WFHistory (setState s v commit) := by
  cases hget : s.history.get? s.index with
  | none => rw [setState_of_none s v commit hget]; exact h
  | some cur =>
    rw [setState_of_some s v commit cur hget]
    by_cases heq : v = cur
    · rw [if_pos heq]; exact h
    · rw [if_neg heq]
      cases commit with
      | true =>
        rw [if_pos rfl]
        show (s.history.take (s.index + 1) ++ [v]).length - 1 <
          (s.history.take (s.index + 1) ++ [v]).length
        have : 0 < (s.history.take (s.index + 1) ++ [v]).length := by simp
        omega
      | false =>
        rw [if_neg (by simp)]
        show s.index < (s.history.set s.index v).length
        rw [List.length_set]
        exact h

lemma history_undo {T : Type} (s : HistoryState T) : (undo s).history = s.history := by
  unfold undo; split <;> rfl

lemma history_redo {T : Type} (s : HistoryState T) : (redo s).history = s.history := by
  unfold redo; split <;> rfl

lemma wf_undo {T : Type} (s : HistoryState T) (h : WFHistory s) :
    WFHistory (undo s) := by
  unfold WFHistory at h
  unfold undo
  split
  next => show s.index - 1 < s.history.length; omega
  next => exact h

lemma wf_redo {T : Type} (s : HistoryState T) (h : WFHistory s) :
    WFHistory (redo s) := by
  unfold WFHistory at h
  unfold redo
  split
  next h0 => show s.index + 1 < s.history.length; omega
  next => exact h

lemma wf_applyOp {T : Type} [DecidableEq T] (s : HistoryState T)
    (op : HistoryOp T) (h : WFHistory s) : WFHistory (applyOp s op) := by
  cases op with
  | set v commit => exact wf_setState s v commit h
  | undo => exact wf_undo s h
  | redo => exact wf_redo s h

lemma getLast?_take_succ {T : Type} (hist : List T) (i : Nat) (cur : T)
    (hget : hist.get? i = some cur) : (hist.take (i + 1)).getLast? = some cur := by
  have hi : i < hist.length := by
    by_contra hcon
    rw [List.get?_eq_getElem?, List.getElem?_eq_none (by omega)] at hget
    exact Option.noConfusion hget
  rw [List.getLast?_eq_getElem?, List.length_take]
  have hlen : min (i + 1) hist.length = i + 1 := by omega
  rw [hlen]
  simp only [Nat.add_sub_cancel, List.getElem?_take]
  rw [if_pos (by omega)]
  rw [List.get?_eq_getElem?] at hget
  exact hget

/-- A committed setState preserves the pairwise distinctness of adjacent
history entries. -/
lemma chain_setState_commit {T : Type} [DecidableEq T] (s : HistoryState T)
    (v : T) (hch : List.Chain' (· ≠ ·) s.history) :
    List.Chain' (· ≠ ·) (setState s v true).history := by
  cases hget : s.history.get? s.index with
  | none => rw [setState_of_none s v true hget]; exact hch
  | some cur =>
    rw [setState_of_some s v true cur hget]
    by_cases heq : v = cur
    · rw [if_pos heq]; exact hch
    · rw [if_neg heq, if_pos rfl]
      show List.Chain' (· ≠ ·) (s.history.take (s.index + 1) ++ [v])
      rw [List.chain'_append]
      refine ⟨?_, ?_, ?_⟩
      · have := hch
        rw [← List.take_append_drop (s.index + 1) s.history] at this
        exact (List.chain'_append.mp this).1
      · simp
      · intro x hx y hy
        rw [getLast?_take_succ s.history s.index cur hget] at hx
        simp only [List.head?_cons, Option.mem_def, Option.some.injEq] at hx hy
        subst hx; subst hy
        exact fun hcv => heq hcv.symm

lemma chain_applyOp {T : Type} [DecidableEq T] (s : HistoryState T)
    (op : HistoryOp T) (hop : op.isCommitted = true)
    (hch : List.Chain' (· ≠ ·) s.history) :
    List.Chain' (· ≠ ·) (applyOp s op).history := by
  cases op with
  | set v commit =>
    have : commit = true := hop
    subst this
    exact chain_setState_commit s v hch
  | undo => rw [applyOp, history_undo]; exact hch
  | redo => rw [applyOp, history_redo]; exact hch

/-- Every state reached from the initial singleton history keeps the index in
bounds, so the fallback branch of setState never runs. -/
theorem runOps_wf {T : Type} [DecidableEq T] (a : T) (ops : List (HistoryOp T)) :
    WFHistory (runOps (initial a) ops) := by
  suffices h : ∀ (s : HistoryState T), WFHistory s → WFHistory (runOps s ops) from
    h (initial a) (wf_initial a)
  induction ops with
  | nil => exact fun s hs => hs
  | cons op t ih =>
    intro s hs
    exact ih (applyOp s op) (wf_applyOp s op hs)

lemma chain_runOps {T : Type} [DecidableEq T] (ops : List (HistoryOp T))
    (hops : ∀ op ∈ ops, op.isCommitted = true) :
    ∀ (s : HistoryState T), List.Chain' (· ≠ ·) s.history →
      List.Chain' (· ≠ ·) (runOps s ops).history := by
  induction ops with
  | nil => exact fun s hs => hs
  | cons op t ih =>
    intro s hs
    have hop := hops op (List.mem_cons_self op t)
    have ht : ∀ o ∈ t, HistoryOp.isCommitted o = true := fun o ho =>
      hops o (List.mem_cons_of_mem op ho)
    exact ih ht (applyOp s op) (chain_applyOp s op hop hs)

lemma rotatePoint_zero (p c : Point) : rotatePoint p c 0 = p := by
  unfold rotatePoint
  ext <;> simp [Real.cos_zero, Real.sin_zero]

lemma rotatePoint_center (c : Point) (angleDegrees : ℝ) :
    rotatePoint c c angleDegrees = c := by
  unfold rotatePoint
  ext <;> simp

lemma deg90_cos : Real.cos (90 * Real.pi / 180) = 0 := by
  have h : (90 : ℝ) * Real.pi / 180 = Real.pi / 2 := by ring
  rw [h, Real.cos_pi_div_two]

lemma deg90_sin : Real.sin (90 * Real.pi / 180) = 1 := by
  have h : (90 : ℝ) * Real.pi / 180 = Real.pi / 2 := by ring
  rw [h, Real.sin_pi_div_two]

lemma degNeg90_cos : Real.cos (-90 * Real.pi / 180) = 0 := by
  have h : (-90 : ℝ) * Real.pi / 180 = -(Real.pi / 2) := by ring
  rw [h, Real.cos_neg, Real.cos_pi_div_two]

lemma degNeg90_sin : Real.sin (-90 * Real.pi / 180) = -1 := by
  have h : (-90 : ℝ) * Real.pi / 180 = -(Real.pi / 2) := by ring
  rw [h, Real.sin_neg, Real.sin_pi_div_two]

lemma rotatePoint_90 (p c : Point) :
    rotatePoint p c 90 = ⟨c.x - (p.y - c.y), c.y + (p.x - c.x)⟩ := by
  unfold rotatePoint
  rw [deg90_cos, deg90_sin]
  ext <;> simp <;> ring

lemma rotatePoint_neg90 (p c : Point) :
    rotatePoint p c (-90) = ⟨c.x + (p.y - c.y), c.y - (p.x - c.x)⟩ := by
  unfold rotatePoint
  rw [degNeg90_cos, degNeg90_sin]
  ext <;> simp <;> ring

lemma encompassingRect_x (boxes : List Rect) :
    (encompassingRect boxes).x = listMin (boxes.map Rect.x) := rfl

lemma encompassingRect_y (boxes : List Rect) :
    (encompassingRect boxes).y = listMin (boxes.map Rect.y) := rfl

lemma encompassingRect_width (boxes : List Rect) :
    (encompassingRect boxes).width =
      listMax (boxes.map fun b => b.x + b.width) - listMin (boxes.map Rect.x) :=
  rfl

lemma encompassingRect_height (boxes : List Rect) :
    (encompassingRect boxes).height =
      listMax (boxes.map fun b => b.y + b.height) - listMin (boxes.map Rect.y) :=
  rfl

lemma find?_eq_head?_filter {α : Type} (p : α → Bool) (l : List α) :
    l.find? p = (l.filter p).head? := by
  induction l with
  | nil => rfl
  | cons a t ih =>
    cases hpa : p a with
    | true =>
      rw [List.find?_cons_of_pos t hpa, List.filter_cons, if_pos hpa,
        List.head?_cons]
    | false =>
      rw [List.find?_cons_of_neg t (by simp [hpa]), List.filter_cons,
        if_neg (by simp [hpa]), ih]

lemma reverse_find?_eq_getLast?_filter {α : Type} (p : α → Bool) (l : List α) :
    l.reverse.find? p = (l.filter p).getLast? := by
  rw [find?_eq_head?_filter, List.filter_reverse, List.head?_reverse]

/-- The bounding box of a drawing with exactly one point: both dimensions
equal the stroke width, whatever its sign, since the padded extrema differ by
exactly the stroke width. -/
lemma getBoundingBox_singleton (d : DrawingItem) (p : Point)
    (hpts : d.points = [p]) :
    getBoundingBox (.drawing d) =
      ⟨p.x - d.strokeWidth / 2, p.y - d.strokeWidth / 2,
       d.strokeWidth, d.strokeWidth⟩ := by
  simp only [getBoundingBox, hpts, List.length_cons, List.length_nil]
  rw [if_neg (by omega)]
  simp only [List.map_cons, List.map_nil, listMin, listMax, List.foldl_nil]
  have hw : max d.strokeWidth
      (p.x + d.strokeWidth / 2 - (p.x - d.strokeWidth / 2)) = d.strokeWidth := by
    have : p.x + d.strokeWidth / 2 - (p.x - d.strokeWidth / 2) = d.strokeWidth := by
      ring
    rw [this, max_self]
  have hh : max d.strokeWidth
      (p.y + d.strokeWidth / 2 - (p.y - d.strokeWidth / 2)) = d.strokeWidth := by
    have : p.y + d.strokeWidth / 2 - (p.y - d.strokeWidth / 2) = d.strokeWidth := by
      ring
    rw [this, max_self]
  rw [hw, hh]

/-- A drawing with one point and positive stroke width converts to a
non-null image item at the padded box. -/
lemma convertDrawingToImageItem_singleton (d : DrawingItem) (p : Point)
    (hpts : d.points = [p]) (hsw : 0 < d.strokeWidth) :
    convertDrawingToImageItem d =
      some
        { id := "drawing_img_" ++ d.id
          x := p.x - d.strokeWidth / 2
          y := p.y - d.strokeWidth / 2
          rotation := 0
          width := d.strokeWidth
          height := d.strokeWidth
          src := ""
          thumbnailSrc := none
          mimeType := "image/png"
          prompt := "a user-made drawing" } := by
  unfold convertDrawingToImageItem
  rw [getBoundingBox_singleton d p hpts]
  rw [if_neg (by push_neg; exact ⟨hsw, hsw⟩)]

/-- Claim C2, corrected. The claim asserts that after every sequence of
setState (commit true or false), undo and redo from the initial singleton
history, no two adjacent history entries are structurally equal; the
transient (commit false) path refutes this (see the counterexample), because
its equality guard compares only against the entry at the current index,
which is not necessarily a neighbour of the overwritten slot's neighbours.
Amended: the invariant holds for every sequence of committed operations,
that is, sequences whose setState operations all carry commit true. -/
theorem C2_adjacent_entries_distinct {T : Type} [DecidableEq T] (a : T)
    (ops : List (HistoryOp T)) (hops : ∀ op ∈ ops, op.isCommitted = true) :
    List.Chain' (· ≠ ·) (runOps (initial a) ops).history :=
  chain_runOps ops hops (initial a) (by simp [initial])

/-- Witness for C2: a concrete committed sequence whose history stays
pairwise distinct in adjacent positions. -/
theorem C2_witness :
    List.Chain' (· ≠ ·) (runOps (initial (0 : ℕ))
      [HistoryOp.set 1 true, HistoryOp.undo, HistoryOp.set 2 true]).history :=
  C2_adjacent_entries_distinct 0
    [HistoryOp.set 1 true, HistoryOp.undo, HistoryOp.set 2 true] (by decide)

/-- Counterexample for C2 as stated: committing 1 and then transiently
overwriting with 0 yields the history 0, 0 with two adjacent equal
entries. -/
theorem C2_counterexample :
    (runOps (initial (0 : ℕ)) [HistoryOp.set 1 true, HistoryOp.set 0 false]).history
        = [0, 0] ∧
    ¬ List.Chain' (· ≠ ·)
        (runOps (initial (0 : ℕ)) [HistoryOp.set 1 true, HistoryOp.set 0 false]).history := by
  refine ⟨by decide, fun h => ?_⟩
  have h2 : List.Chain' (· ≠ ·) ([0, 0] : List ℕ) := h
  exact (List.chain'_cons.mp h2).1 rfl

/-- Claim C4, corrected. The claim asserts that for every history state and
every value x, setState x with commit true followed by undo and redo leaves
the current value equal to x. When x equals the current entry the setState is
a guarded no-op, and at index 0 with a redo tail the trailing redo then moves
off x (see the counterexample). Amended: the round trip holds whenever the
committed value differs from the entry at the current index, for every state
whose index is in bounds, which holds in every reachable state. -/
theorem C4_commit_undo_redo_roundtrip {T : Type} [DecidableEq T]
    (s : HistoryState T) (x : T) (hwf : s.index < s.history.length)
    (hx : s.history.get? s.index ≠ some x) :
    currentValue (redo (undo (setState s x true))) = some x := by
  obtain ⟨cur, hget⟩ : ∃ cur, s.history.get? s.index = some cur := by
    rw [List.get?_eq_getElem?]
    exact ⟨_, List.getElem?_eq_getElem hwf⟩
  have hne : ¬ x = cur := fun h => hx (by rw [hget, h])
  have hlen : (s.history.take (s.index + 1) ++ [x]).length = s.index + 2 := by
    rw [List.length_append, List.length_take]
    simp only [List.length_cons, List.length_nil]
    omega
  have h1 : setState s x true =
      ⟨s.history.take (s.index + 1) ++ [x],
       (s.history.take (s.index + 1) ++ [x]).length - 1⟩ := by
    rw [setState_of_some s x true cur hget, if_neg hne, if_pos rfl]
  rw [h1, hlen]
  have h2 : undo (⟨s.history.take (s.index + 1) ++ [x], s.index + 2 - 1⟩ :
      HistoryState T) = ⟨s.history.take (s.index + 1) ++ [x], s.index⟩ := by
    unfold undo
    rw [if_pos (show (0 : ℕ) < s.index + 2 - 1 by omega)]
    rfl
  rw [h2]
  have h3 : redo (⟨s.history.take (s.index + 1) ++ [x], s.index⟩ :
      HistoryState T) = ⟨s.history.take (s.index + 1) ++ [x], s.index + 1⟩ := by
    unfold redo
    rw [if_pos (show s.index < (s.history.take (s.index + 1) ++ [x]).length - 1 by
      omega)]
  rw [h3]
  unfold currentValue
  rw [List.get?_eq_getElem?]
  have htk : (s.history.take (s.index + 1)).length = s.index + 1 := by
    rw [List.length_take]
    omega
  rw [List.getElem?_append_right (show (s.history.take (s.index + 1)).length ≤
    s.index + 1 by omega)]
  rw [htk]
  simp

/-- Witness for C4: committing 1 over the initial history 0, then undo and
redo, lands back on 1. -/
theorem C4_witness :
    currentValue (redo (undo (setState (initial (0 : ℕ)) 1 true))) = some 1 :=
  C4_commit_undo_redo_roundtrip (initial 0) 1 (by decide) (by decide)

/-- Counterexample for C4 as stated: in the reachable state with history
0, 1 and index 0, committing the value 0 is a guarded no-op, undo is a no-op
at index 0, and redo then moves to the entry 1, not 0. -/
theorem C4_counterexample :
    (runOps (initial (0 : ℕ)) [HistoryOp.set 1 true, HistoryOp.undo]).history
        = [0, 1] ∧
    (runOps (initial (0 : ℕ)) [HistoryOp.set 1 true, HistoryOp.undo]).index = 0 ∧
    currentValue (redo (undo (setState
      (runOps (initial (0 : ℕ)) [HistoryOp.set 1 true, HistoryOp.undo])
      0 true))) = some 1 := by
  decide

/-- Claim C5, confirmed: a setState with commit false never changes the
history length or the index; when the index is in bounds it overwrites the
entry at the current index with the new value; and two successive commit
false updates leave the length unchanged as well. -/
theorem C5_transient_update_in_place {T : Type} [DecidableEq T]
    (s : HistoryState T) (v : T) :
    ((setState s v false).history.length = s.history.length ∧
      (setState s v false).index = s.index) ∧
    (s.index < s.history.length →
      (setState s v false).history.get? s.index = some v) ∧
    (∀ w : T, (setState (setState s v false) w false).history.length
        = s.history.length) := by
  have hbase : ∀ (u : HistoryState T) (z : T),
      (setState u z false).history.length = u.history.length ∧
      (setState u z false).index = u.index := by
    intro u z
    cases hget : u.history.get? u.index with
    | none => rw [setState_of_none u z false hget]; exact ⟨rfl, rfl⟩
    | some cur =>
      rw [setState_of_some u z false cur hget]
      by_cases heq : z = cur
      · rw [if_pos heq]; exact ⟨rfl, rfl⟩
      · rw [if_neg heq, if_neg (by simp)]
        exact ⟨List.length_set u.history u.index z, rfl⟩
  refine ⟨hbase s v, ?_, fun w => ?_⟩
  · intro hwf
    cases hget : s.history.get? s.index with
    | none =>
      rw [List.get?_eq_getElem?, List.getElem?_eq_getElem hwf] at hget
      exact Option.noConfusion hget
    | some cur =>
      rw [setState_of_some s v false cur hget]
      by_cases heq : v = cur
      · rw [if_pos heq, hget, heq]
      · rw [if_neg heq, if_neg (by simp)]
        show (s.history.set s.index v).get? s.index = some v
        rw [List.get?_eq_getElem?, List.getElem?_set, if_pos rfl, if_pos hwf]
  · rw [(hbase (setState s v false) w).1, (hbase s v).1]

/-- Claim C6, confirmed: a setState whose value structurally equals the
current entry changes nothing at all, fires no change notification, and in
particular leaves canUndo and canRedo unchanged. -/
theorem C6_noop_guard {T : Type} [DecidableEq T] (s : HistoryState T) (v : T)
    (commit : Bool) (h : s.history.get? s.index = some v) :
    setState s v commit = s ∧ setStateNotifies s v = false ∧
    canUndo (setState s v commit) = canUndo s ∧
    canRedo (setState s v commit) = canRedo s := by
  have h1 : setState s v commit = s := by
    rw [setState_of_some s v commit v h, if_pos rfl]
  refine ⟨h1, ?_, by rw [h1], by rw [h1]⟩
  unfold setStateNotifies
  rw [h]
  simp

/-- Witness for C6: setting the singleton history's value 7 to 7 again is a
complete no-op. -/
theorem C6_witness :
    setState (⟨[7], 0⟩ : HistoryState ℕ) 7 true = ⟨[7], 0⟩ ∧
    setStateNotifies (⟨[7], 0⟩ : HistoryState ℕ) 7 = false ∧
    canUndo (setState (⟨[7], 0⟩ : HistoryState ℕ) 7 true)
        = canUndo (⟨[7], 0⟩ : HistoryState ℕ) ∧
    canRedo (setState (⟨[7], 0⟩ : HistoryState ℕ) 7 true)
        = canRedo (⟨[7], 0⟩ : HistoryState ℕ) :=
  C6_noop_guard ⟨[7], 0⟩ 7 true (by decide)

/-- Claim C1, corrected. The claim asserts that for a single-point drawing
with positive stroke width, getBoundingBox reports width and height equal to
the stroke width (true) and convertDrawingToImageItem returns null (false:
the guard only fires when the box has width or height at most 0, which the
stroke-width minimum prevents, so the dot is rasterized; see the
counterexample). Amended: getBoundingBox reports width = height =
strokeWidth, and convertDrawingToImageItem returns a non-null image item
whose dimensions are the stroke width, placed at the padded box. -/
theorem C1_single_point_drawing (d : DrawingItem) (p : Point)
    (hpts : d.points = [p]) (hsw : 0 < d.strokeWidth) :
    (getBoundingBox (.drawing d)).width = d.strokeWidth ∧
    (getBoundingBox (.drawing d)).height = d.strokeWidth ∧
    ∃ img, convertDrawingToImageItem d = some img ∧
      img.width = d.strokeWidth ∧ img.height = d.strokeWidth ∧
      img.x = p.x - d.strokeWidth / 2 ∧ img.y = p.y - d.strokeWidth / 2 := by
  rw [getBoundingBox_singleton d p hpts]
  exact ⟨rfl, rfl,
    ⟨_, convertDrawingToImageItem_singleton d p hpts hsw, rfl, rfl, rfl, rfl⟩⟩

/-- Witness for C1: the dot drawing at the origin with stroke width 4 has a
4 by 4 bounding box and converts to a non-null 4 by 4 image at the padded
box position. -/
theorem C1_witness :
    (getBoundingBox (.drawing dotDrawing)).width = 4 ∧
    (getBoundingBox (.drawing dotDrawing)).height = 4 ∧
    ∃ img, convertDrawingToImageItem dotDrawing = some img ∧
      img.width = 4 ∧ img.height = 4 ∧
      img.x = 0 - 4 / 2 ∧ img.y = 0 - 4 / 2 :=
  C1_single_point_drawing dotDrawing ⟨0, 0⟩ rfl (by norm_num [dotDrawing])

/-- Counterexample for C1 as stated: the single-point drawing with stroke
width 4 is not dropped; its conversion is not null. -/
theorem C1_counterexample : convertDrawingToImageItem dotDrawing ≠ none := by
  rw [convertDrawingToImageItem_singleton dotDrawing ⟨0, 0⟩ rfl
    (by norm_num [dotDrawing])]
  simp

/-- Claim C10, confirmed: a drawing whose point list is empty gets the zero
bounding box from the early return, not the minimum stroke-width box, and
its rotated bounding box is the zero box as well, for every rotation and
stroke width. -/
theorem C10_empty_drawing_zero_box (d : DrawingItem) (h : d.points = []) :
    getBoundingBox (.drawing d) = ⟨0, 0, 0, 0⟩ ∧
    getRotatedBoundingBox (.drawing d) = ⟨0, 0, 0, 0⟩ := by
  have h1 : getBoundingBox (.drawing d) = ⟨0, 0, 0, 0⟩ := by
    simp [getBoundingBox, h]
  refine ⟨h1, ?_⟩
  unfold getRotatedBoundingBox
  rw [h1]
  simp [getCenter, rotatePoint, listMin, listMax]

/-- Claim C3, confirmed: dragging the se handle of the unrotated 100 by 100
image at the origin until the mouse reaches canvas point 150 150, with no
aspect lock, produces the item with width 150, height 150 and unchanged
origin: the opposite corner at the origin stays fixed. -/
theorem C3_se_resize_scenario :
    resizeMove (resizeInteractionStart squareImage seHandle) [squareImage]
      ⟨150, 150⟩ false = [squareImageResized] := by
  unfold resizeMove resizeDims resizeInteractionStart
  simp only [show stringIncludes seHandle 'e' = true from rfl,
             show stringIncludes seHandle 's' = true from rfl]
  norm_num [squareImage, squareImageResized, getBoundingBox, getCenter,
    rotatePoint_zero, CanvasItem.id, CanvasItem.rotation]

/-- Claim C9, confirmed: when the computed resize dimensions, after any
aspect-lock adjustment, include one below 10, the step leaves the item
collection untouched; and any item the step produces either already occurs
in the collection or carries stored width and height at least 10 (drawings
store no dimensions), so stored dimensions never fall below 10 during an
interactive resize. -/
theorem C9_resize_floor :
    (∀ (st : ResizeState) (items : List CanvasItem) (mouse : Point)
        (shiftKey : Bool),
      (resizeDims st mouse shiftKey).1 < 10 ∨
        (resizeDims st mouse shiftKey).2 < 10 →
      resizeMove st items mouse shiftKey = items) ∧
    (∀ (st : ResizeState) (items : List CanvasItem) (mouse : Point)
        (shiftKey : Bool) (it : CanvasItem) (w h : ℝ),
      it ∈ resizeMove st items mouse shiftKey → itemDims it = some (w, h) →
      it ∈ items ∨ (10 ≤ w ∧ 10 ≤ h)) := by
  constructor
  · intro st items mouse shiftKey hlow
    simp only [resizeMove]
    rw [if_pos hlow]
  · intro st items mouse shiftKey it w h hmem hdims
    simp only [resizeMove] at hmem
    by_cases hc : (resizeDims st mouse shiftKey).1 < 10 ∨
        (resizeDims st mouse shiftKey).2 < 10
    · rw [if_pos hc] at hmem
      exact Or.inl hmem
    · rw [if_neg hc] at hmem
      push_neg at hc
      rcases List.mem_map.mp hmem with ⟨x, hx, hfx⟩
      by_cases hid : x.id ≠ st.item.id
      · rw [if_pos hid] at hfx
        exact Or.inl (hfx ▸ hx)
      · rw [if_neg hid] at hfx
        cases x with
        | image i =>
          rw [← hfx] at hdims
          simp only [itemDims, Option.some.injEq, Prod.mk.injEq] at hdims
          exact Or.inr ⟨hdims.1 ▸ hc.1, hdims.2 ▸ hc.2⟩
        | video v =>
          rw [← hfx] at hdims
          simp only [itemDims, Option.some.injEq, Prod.mk.injEq] at hdims
          exact Or.inr ⟨hdims.1 ▸ hc.1, hdims.2 ▸ hc.2⟩
        | text t =>
          rw [← hfx] at hdims
          simp only [itemDims, Option.some.injEq, Prod.mk.injEq] at hdims
          exact Or.inr ⟨hdims.1 ▸ hc.1, hdims.2 ▸ hc.2⟩
        | drawing d =>
          rw [← hfx] at hdims
          simp only [itemDims] at hdims
          exact Option.noConfusion hdims

/-- Witness for C10: the concrete empty drawing with stroke width 3 and
rotation 37 reports the zero box from both functions. -/
theorem C10_witness :
    getBoundingBox (.drawing emptyDrawing) = ⟨0, 0, 0, 0⟩ ∧
    getRotatedBoundingBox (.drawing emptyDrawing) = ⟨0, 0, 0, 0⟩ :=
  C10_empty_drawing_zero_box emptyDrawing rfl

open Classical in
/-- Claim C7, confirmed. findItemAtPoint returns the last item in array
order (topmost) that is not ghosted and whose unrotated bounding box contains
the query point un-rotated about the box center by the negative item
rotation, and none when no such item exists: it equals the getLast? of the
hit-filtered list, membership in that list is exactly the hit condition, and
the none case is the absence of any hit. For the 90-degree scenario: the
100 by 40 image rotated 90 degrees is hit at the point 50 60, which lies in
its post-rotation occupied box, and missed at 90 20, which lies in the
pre-rotation axis-aligned box but outside the post-rotation one. -/
theorem C7_find_item_at_point :
    (∀ (items : List CanvasItem) (ghostedItemIds : List String) (point : Point),
      findItemAtPoint items ghostedItemIds point =
        (filterHits items ghostedItemIds point).getLast?) ∧
    (∀ (items : List CanvasItem) (ghostedItemIds : List String) (point : Point)
        (it : CanvasItem),
      it ∈ filterHits items ghostedItemIds point ↔
        it ∈ items ∧ hitsItem ghostedItemIds point it) ∧
    (∀ (items : List CanvasItem) (ghostedItemIds : List String) (point : Point),
      findItemAtPoint items ghostedItemIds point = none ↔
        ∀ it ∈ items, ¬ hitsItem ghostedItemIds point it) ∧
    findItemAtPoint [rotatedImage] [] hitPoint = some rotatedImage ∧
    isPointInBox hitPoint (getRotatedBoundingBox rotatedImage) ∧
    findItemAtPoint [rotatedImage] [] missPoint = none ∧
    isPointInBox missPoint (getBoundingBox rotatedImage) ∧
    ¬ isPointInBox missPoint (getRotatedBoundingBox rotatedImage) := by
  have hbox : getBoundingBox rotatedImage = ⟨0, 0, 100, 40⟩ := by
    simp [getBoundingBox, rotatedImage]
  have hrot : rotatedImage.rotation = 90 := rfl
  have hrbox : getRotatedBoundingBox rotatedImage = ⟨30, -30, 40, 100⟩ := by
    unfold getRotatedBoundingBox
    rw [hbox]
    simp only [hrot, rotatePoint_90, List.map_cons, List.map_nil]
    norm_num [getCenter, listMin, listMax, min_def, max_def]
  have hhit : hitsItem [] hitPoint rotatedImage := by
    simp only [hitsItem]
    refine ⟨by simp, ?_⟩
    rw [hbox]
    simp only [hrot]
    rw [show -(90 : ℝ) = (-90 : ℝ) from rfl, rotatePoint_neg90]
    norm_num [getCenter, hitPoint]
  have hmiss : ¬ hitsItem [] missPoint rotatedImage := by
    simp only [hitsItem]
    rw [hbox]
    simp only [hrot]
    rw [show -(90 : ℝ) = (-90 : ℝ) from rfl, rotatePoint_neg90]
    norm_num [getCenter, missPoint]
  refine ⟨?_, ?_, ?_, ?_, ?_, ?_, ?_, ?_⟩
  · intro items g p
    unfold findItemAtPoint filterHits
    exact reverse_find?_eq_getLast?_filter _ items
  · intro items g p it
    unfold filterHits
    rw [List.mem_filter, decide_eq_true_eq]
  · intro items g p
    unfold findItemAtPoint
    rw [List.find?_eq_none]
    simp only [List.mem_reverse, decide_eq_true_eq]
  · unfold findItemAtPoint
    rw [show ([rotatedImage] : List CanvasItem).reverse = [rotatedImage] from rfl]
    simp [List.find?_cons, decide_eq_true hhit]
  · rw [hrbox]
    norm_num [isPointInBox, hitPoint]
  · unfold findItemAtPoint
    rw [show ([rotatedImage] : List CanvasItem).reverse = [rotatedImage] from rfl]
    simp [List.find?_cons, decide_eq_false hmiss]
  · rw [hbox]
    norm_num [isPointInBox, missPoint]
  · rw [hrbox]
    norm_num [isPointInBox, missPoint]

open Classical in
/-- Claim C8, confirmed. On marquee release with at least one overlapping
item and a marquee strictly exceeding 5 in both dimensions, the reported
rect is the exact axis-aligned min/max union of the rotated bounding boxes
of the overlapping items: it contains every overlapping item's box and each
of its four sides is attained by some overlapping item. Otherwise the
selection is cleared; in particular a 3 by 3 marquee over two overlapping
items clears the selection. -/
theorem C8_marquee_release :
    (∀ (items : List CanvasItem) (rect : Rect),
      rect.width > 5 → rect.height > 5 →
      (∃ it ∈ items, isItemInSelection it rect) →
      ∃ r sel, marqueeRelease items rect = some (r, sel) ∧
        sel = overlappingItems items rect ∧
        (∀ it ∈ items, isItemInSelection it rect → it ∈ sel) ∧
        (∀ it ∈ sel, it ∈ items ∧ isItemInSelection it rect ∧
          rectContainsBox r (getRotatedBoundingBox it)) ∧
        (∃ it ∈ sel, (getRotatedBoundingBox it).x = r.x) ∧
        (∃ it ∈ sel, (getRotatedBoundingBox it).y = r.y) ∧
        (∃ it ∈ sel,
          (getRotatedBoundingBox it).x + (getRotatedBoundingBox it).width
            = r.x + r.width) ∧
        (∃ it ∈ sel,
          (getRotatedBoundingBox it).y + (getRotatedBoundingBox it).height
            = r.y + r.height)) ∧
    (∀ (items : List CanvasItem) (rect : Rect),
      (¬ (rect.width > 5 ∧ rect.height > 5) ∨
        ∀ it ∈ items, ¬ isItemInSelection it rect) →
      marqueeRelease items rect = none) ∧
    isItemInSelection marqueeItem1 smallMarquee ∧
    isItemInSelection marqueeItem2 smallMarquee ∧
    marqueeRelease [marqueeItem1, marqueeItem2] smallMarquee = none := by
  have hA : ∀ (items : List CanvasItem) (rect : Rect) (it : CanvasItem),
      it ∈ overlappingItems items rect ↔
        it ∈ items ∧ isItemInSelection it rect := by
    intro items rect it
    unfold overlappingItems
    rw [List.mem_filter, decide_eq_true_eq]
  refine ⟨?_, ?_, ?_, ?_, ?_⟩
  · intro items rect hw hh hex
    obtain ⟨it0, hit0, hsel0⟩ := hex
    have hne : overlappingItems items rect ≠ [] := by
      intro hnil
      have hmem0 : it0 ∈ overlappingItems items rect :=
        (hA items rect it0).mpr ⟨hit0, hsel0⟩
      rw [hnil] at hmem0
      exact absurd hmem0 (List.not_mem_nil it0)
    have hlen : 0 < (overlappingItems items rect).length :=
      List.length_pos.mpr hne
    have hbne : (overlappingItems items rect).map getRotatedBoundingBox ≠ [] := by
      intro hnil
      rw [List.map_eq_nil_iff] at hnil
      exact hne hnil
    have hrel : marqueeRelease items rect =
        some (encompassingRect
          ((overlappingItems items rect).map getRotatedBoundingBox),
          overlappingItems items rect) := by
      unfold marqueeRelease
      rw [if_pos ⟨hlen, hw, hh⟩]
    refine ⟨_, _, hrel, rfl, ?_, ?_, ?_, ?_, ?_, ?_⟩
    · intro it hit hsel
      exact (hA items rect it).mpr ⟨hit, hsel⟩
    · intro it hit
      refine ⟨((hA items rect it).mp hit).1, ((hA items rect it).mp hit).2, ?_⟩
      unfold rectContainsBox
      have hx : listMin (((overlappingItems items rect).map
            getRotatedBoundingBox).map Rect.x) ≤ (getRotatedBoundingBox it).x :=
        listMin_le_of_mem
          (List.mem_map_of_mem Rect.x
            (List.mem_map_of_mem getRotatedBoundingBox hit))
      have hy : listMin (((overlappingItems items rect).map
            getRotatedBoundingBox).map Rect.y) ≤ (getRotatedBoundingBox it).y :=
        listMin_le_of_mem
          (List.mem_map_of_mem Rect.y
            (List.mem_map_of_mem getRotatedBoundingBox hit))
      have hxw : (getRotatedBoundingBox it).x + (getRotatedBoundingBox it).width ≤
          listMax (((overlappingItems items rect).map
            getRotatedBoundingBox).map fun b => b.x + b.width) :=
        le_listMax_of_mem
          (List.mem_map_of_mem (fun b => b.x + b.width)
            (List.mem_map_of_mem getRotatedBoundingBox hit))
      have hyh : (getRotatedBoundingBox it).y + (getRotatedBoundingBox it).height ≤
          listMax (((overlappingItems items rect).map
            getRotatedBoundingBox).map fun b => b.y + b.height) :=
        le_listMax_of_mem
          (List.mem_map_of_mem (fun b => b.y + b.height)
            (List.mem_map_of_mem getRotatedBoundingBox hit))
      refine ⟨?_, ?_, ?_, ?_⟩
      · rw [encompassingRect_x]; exact hx
      · rw [encompassingRect_x, encompassingRect_width]; linarith
      · rw [encompassingRect_y]; exact hy
      · rw [encompassingRect_y, encompassingRect_height]; linarith
    · have hm := listMin_mem (show ((overlappingItems items rect).map
          getRotatedBoundingBox).map Rect.x ≠ [] from by
        intro hnil
        rw [List.map_eq_nil_iff] at hnil
        exact hbne hnil)
      rcases List.mem_map.mp hm with ⟨b, hb, hbx⟩
      rcases List.mem_map.mp hb with ⟨itb, hitb, hiteq⟩
      exact ⟨itb, hitb, by rw [hiteq, hbx, encompassingRect_x]⟩
    · have hm := listMin_mem (show ((overlappingItems items rect).map
          getRotatedBoundingBox).map Rect.y ≠ [] from by
        intro hnil
        rw [List.map_eq_nil_iff] at hnil
        exact hbne hnil)
      rcases List.mem_map.mp hm with ⟨b, hb, hby⟩
      rcases List.mem_map.mp hb with ⟨itb, hitb, hiteq⟩
      exact ⟨itb, hitb, by rw [hiteq, hby, encompassingRect_y]⟩
    · have hm := listMax_mem (show ((overlappingItems items rect).map
          getRotatedBoundingBox).map (fun b => b.x + b.width) ≠ [] from by
        intro hnil
        rw [List.map_eq_nil_iff] at hnil
        exact hbne hnil)
      rcases List.mem_map.mp hm with ⟨b, hb, hbxw⟩
      rcases List.mem_map.mp hb with ⟨itb, hitb, hiteq⟩
      refine ⟨itb, hitb, ?_⟩
      rw [hiteq, encompassingRect_x, encompassingRect_width, hbxw]
      ring
    · have hm := listMax_mem (show ((overlappingItems items rect).map
          getRotatedBoundingBox).map (fun b => b.y + b.height) ≠ [] from by
        intro hnil
        rw [List.map_eq_nil_iff] at hnil
        exact hbne hnil)
      rcases List.mem_map.mp hm with ⟨b, hb, hbyh⟩
      rcases List.mem_map.mp hb with ⟨itb, hitb, hiteq⟩
      refine ⟨itb, hitb, ?_⟩
      rw [hiteq, encompassingRect_y, encompassingRect_height, hbyh]
      ring
  · intro items rect h
    unfold marqueeRelease
    rw [if_neg ?_]
    rintro ⟨hlen, hw, hh⟩
    rcases h with h | h
    · exact h ⟨hw, hh⟩
    · have hnil : overlappingItems items rect = [] := by
        unfold overlappingItems
        rw [List.filter_eq_nil_iff]
        intro a ha
        simp only [decide_eq_true_eq]
        exact h a ha
      rw [hnil] at hlen
      exact absurd hlen (by simp)
  · have hb1 : getRotatedBoundingBox marqueeItem1 = ⟨0, 0, 10, 10⟩ := by
      unfold getRotatedBoundingBox
      rw [show getBoundingBox marqueeItem1 = ⟨0, 0, 10, 10⟩ from by
        simp [getBoundingBox, marqueeItem1]]
      simp only [show marqueeItem1.rotation = 0 from rfl, rotatePoint_zero,
        List.map_cons, List.map_nil]
      norm_num [getCenter, listMin, listMax, min_def, max_def]
    unfold isItemInSelection
    rw [hb1]
    norm_num [smallMarquee]
  · have hb2 : getRotatedBoundingBox marqueeItem2 = ⟨5, 5, 10, 10⟩ := by
      unfold getRotatedBoundingBox
      rw [show getBoundingBox marqueeItem2 = ⟨5, 5, 10, 10⟩ from by
        simp [getBoundingBox, marqueeItem2]]
      simp only [show marqueeItem2.rotation = 0 from rfl, rotatePoint_zero,
        List.map_cons, List.map_nil]
      norm_num [getCenter, listMin, listMax, min_def, max_def]
    unfold isItemInSelection
    rw [hb2]
    norm_num [smallMarquee]
  · unfold marqueeRelease
    rw [if_neg ?_]
    rintro ⟨_, hw, _⟩
    have : smallMarquee.width = 3 := rfl
    rw [this] at hw
    norm_num at hw

end FusionImg
